import Mathlib

/-!
A shallow embedding of the per-channel Kafka chain driver of the ordering
consenter (source file orderer/kafka/orderer.go), together with theorems
about its event loop, startup, ingress and shutdown paths.

The event loop (chainImpl.loop) is embedded as a step function over an
explicit state; external collaborators (block cutter, producer, consumer)
appear as oracle data carried on each event, exactly at the points where the
source consults them.  Go uint64 arithmetic is modelled as Nat with explicit
reduction modulo 2^64; Kafka offsets (int64, never near their bounds in any
claim considered here) are modelled as Int.
-/

set_option autoImplicit false

namespace FabricKafka

/-- 2^64, the modulus of Go uint64 arithmetic (used for lastCutBlock and for
the ledger height). -/
def U64 : Nat := 2 ^ 64

/-- sarama.OffsetOldest.  The source returns OffsetOldest - 1 as the
"no persisted offset yet" sentinel (orderer.go line 96). -/
def OffsetOldest : Int := -2

/-- The state owned by the event loop of chainImpl (orderer.go lines 144-162
and the locals of chainImpl.loop, lines 237-241):
lastOffsetPersisted and lastCutBlock are the struct fields of those names;
height is the block height of the ledger behind the ConsenterSupport
(support.Height(), the count of written blocks, so the next block created by
support.CreateNextBlock carries number height); timerRunning tells whether
the local timer channel of the loop is non-nil. -/
structure LoopState where
  lastOffsetPersisted : Int
  lastCutBlock : Nat
  height : Nat
  timerRunning : Bool
deriving DecidableEq

/-- The observable effects of one iteration of chainImpl.loop:
writeBlock n off is a call support.WriteBlock(block, committers, metadata)
where block is the next block (number n) and metadata carries
KafkaMetadata with LastOffsetPersisted = off (lines 273-275 and 302-305);
sendTimeToCut n ok is producer.Send of newTimeToCutMessage(n), with ok the
success of the send (line 316). -/
inductive Action where
  | writeBlock (blockNumber : Nat) (lastOffsetPersisted : Int)
  | sendTimeToCut (blockNumber : Nat) (sendOk : Bool)
deriving DecidableEq

/-- Outcome of one iteration of the select in chainImpl.loop: either the loop
continues with a new state, or it returns (lines 271, 284, 322), carrying the
state at the moment of return. -/
inductive StepResult where
  | next (s : LoopState) (acts : List Action)
  | exit (s : LoopState) (acts : List Action)
deriving DecidableEq

/-- The state component of a step result. -/
def StepResult.state : StepResult → LoopState
  | StepResult.next s _ => s
  | StepResult.exit s _ => s

/-- The emitted actions of a step result. -/
def StepResult.acts : StepResult → List Action
  | StepResult.next _ a => a
  | StepResult.exit _ a => a

/-- One event consumed by the select of chainImpl.loop, together with the
oracle data the loop would obtain from its collaborators at that event:
a consumed KafkaMessage (with its partition offset in.Offset and, for the
variants that consult the block cutter, the cutter's answer), the firing of
the batch timer (with the success of the subsequent producer send), or the
closing of exitChan. -/
inductive LoopInput where
  | recvConnect (offset : Int)
  | recvTimeToCut (offset : Int) (ttcNumber : Nat) (cutBatch : List Nat)
  | recvRegular (offset : Int) (batches : List (List Nat)) (ok : Bool)
  | timerFired (sendOk : Bool)
  | exitSignal
deriving DecidableEq

/-- The partition offset of a consumed message, when the input is one. -/
def inputOffset : LoopInput → Option Int
  | LoopInput.recvConnect offset => some offset
  | LoopInput.recvTimeToCut offset _ _ => some offset
  | LoopInput.recvRegular offset _ _ => some offset
  | LoopInput.timerFired _ => none
  | LoopInput.exitSignal => none

/-- The for-loop over the batches returned by BlockCutter().Ordered
(orderer.go lines 302-308): for each batch, CreateNextBlock (block number =
current ledger height), WriteBlock with KafkaMetadata{LastOffsetPersisted:
in.Offset}, then ch.lastCutBlock++. -/
def cutBatchesL : LoopState → Int → List (List Nat) → LoopState × List Action
  | s, _, [] => (s, [])
  | s, offset, _ :: rest =>
    let s1 : LoopState :=
      { s with height := (s.height + 1) % U64,
               lastCutBlock := (s.lastCutBlock + 1) % U64 }
    let r := cutBatchesL s1 offset rest
    (r.1, Action.writeBlock s.height offset :: r.2)

/-- One iteration of the select in chainImpl.loop (orderer.go lines 248-324).
Branches, in source order:
a Connect message is ignored (line 259);
a TimeToCut message compares its BlockNumber with lastCutBlock+1 (uint64):
on equality the timer is nil'd and BlockCutter().Cut() consulted - an empty
batch returns from the loop (line 271), otherwise one block is cut and
lastCutBlock incremented (lines 273-279); a larger number returns from the
loop (line 284); a smaller one is stale and ignored (line 286);
a Regular message feeds BlockCutter().Ordered - if accepted with no batches
and no timer pending, the timer is started (lines 296-299), otherwise each
returned batch is cut as above and a non-empty batch list nils the timer
(lines 302-311);
timer expiry nils the timer and posts TimeToCut(lastCutBlock+1), send
failure does not exit (lines 313-319);
a closed exitChan returns from the loop (lines 320-322). -/
def loopStep (s : LoopState) : LoopInput → StepResult
  | LoopInput.recvConnect _ => StepResult.next s []
  | LoopInput.recvTimeToCut offset ttcNumber cutBatch =>
    if ttcNumber = (s.lastCutBlock + 1) % U64 then
      if cutBatch.isEmpty then
        StepResult.exit { s with timerRunning := false } []
      else
        StepResult.next
          { s with timerRunning := false,
                   height := (s.height + 1) % U64,
                   lastCutBlock := (s.lastCutBlock + 1) % U64 }
          [Action.writeBlock s.height offset]
    else if ttcNumber > (s.lastCutBlock + 1) % U64 then
      StepResult.exit s []
    else
      StepResult.next s []
  | LoopInput.recvRegular offset batches ok =>
    if ok && batches.isEmpty && !s.timerRunning then
      StepResult.next { s with timerRunning := true } []
    else if batches.isEmpty then
      StepResult.next (cutBatchesL s offset batches).1 (cutBatchesL s offset batches).2
    else
      StepResult.next
        { (cutBatchesL s offset batches).1 with timerRunning := false }
        (cutBatchesL s offset batches).2
  | LoopInput.timerFired sendOk =>
    StepResult.next { s with timerRunning := false }
      [Action.sendTimeToCut ((s.lastCutBlock + 1) % U64) sendOk]
  | LoopInput.exitSignal => StepResult.exit s []

/-- A run of chainImpl.loop over a sequence of events: the final state, the
concatenated actions, and whether the loop returned before consuming every
event. -/
def loopRun : LoopState → List LoopInput → LoopState × List Action × Bool
  | s, [] => (s, [], false)
  | s, i :: rest =>
    match loopStep s i with
    | StepResult.next s1 acts =>
      let r := loopRun s1 rest
      (r.1, acts ++ r.2.1, r.2.2)
    | StepResult.exit s1 acts => (s1, acts, true)

/-- The block numbers of the WriteBlock calls in a list of actions, in
order. -/
def writeNums (acts : List Action) : List Nat :=
  acts.filterMap fun a =>
    match a with
    | Action.writeBlock n _ => some n
    | Action.sendTimeToCut _ _ => none

/-- The successive values (b+1) % 2^64, (b+2) % 2^64, ... taken by
lastCutBlock across k increments starting from b. -/
def modRange : Nat → Nat → List Nat
  | _, 0 => []
  | b, k + 1 => ((b + 1) % U64) :: modRange ((b + 1) % U64) k

/-- The list start, start+1, ..., start+k-1 of consecutive naturals: the
shape "lastCutBlock+1, lastCutBlock+2, ..., no gaps, no repeats". -/
def consecFrom : Nat → Nat → List Nat
  | _, 0 => []
  | start, k + 1 => start :: consecFrom (start + 1) k

/-- The loop invariant tying the ledger height to lastCutBlock: the next
block number equals lastCutBlock + 1 (uint64), and lastCutBlock is a uint64
value. -/
def Inv (s : LoopState) : Prop :=
  s.lastCutBlock < U64 ∧ s.height = (s.lastCutBlock + 1) % U64

/-- getLastOffsetPersisted (orderer.go lines 86-97): if metadata.Value is
non-nil, unmarshal it as KafkaMetadata and return its LastOffsetPersisted,
panicking (modelled as Except.error) when the unmarshal fails; with nil
Value return OffsetOldest - 1.  The protobuf decoder is passed in as an
abstract function from bytes to the decoded LastOffsetPersisted field. -/
def getLastOffsetPersisted (value : Option (List Nat))
    (decode : List Nat → Option Int) : Except Unit Int :=
  match value with
  | some bytes =>
    match decode bytes with
    | some lastOffsetPersisted => Except.ok lastOffsetPersisted
    | none => Except.error ()
  | none => Except.ok (OffsetOldest - 1)

/-- newChain (orderer.go lines 107-124): lastCutBlock := support.Height() - 1
in uint64 arithmetic (wrapping when the height is zero), lastOffsetPersisted
as recovered by the caller, no timer pending yet (the timer is a local of
the loop, nil at entry). -/
def newChainState (lastOffsetPersisted : Int) (height : Nat) : LoopState :=
  { lastOffsetPersisted := lastOffsetPersisted,
    lastCutBlock := (height + (U64 - 1)) % U64,
    height := height % U64,
    timerRunning := false }

/-- HandleChain (orderer.go lines 82-84): recover lastOffsetPersisted from
the block metadata via getLastOffsetPersisted and build the chain with
newChain. -/
def handleChain (value : Option (List Nat)) (decode : List Nat → Option Int)
    (height : Nat) : Except Unit LoopState :=
  match getLastOffsetPersisted value decode with
  | Except.ok offset => Except.ok (newChainState offset height)
  | Except.error e => Except.error e

/-- The starting offset chainImpl.Start hands to the consumer constructor
(orderer.go line 180): ch.lastOffsetPersisted + 1, reached only when the
CONNECT message was posted successfully (lines 171-176). -/
def startConsumerOffset (ch : LoopState) (connectOk : Bool) : Option Int :=
  if connectOk then some (ch.lastOffsetPersisted + 1) else none

/-- chainImpl.Enqueue (orderer.go lines 222-235) as a function of the three
values it reads: ch.halted at entry, the success of producer.Send, and
ch.halted at the final read (line 234). -/
def enqueue (haltedAtEntry : Bool) (sendOk : Bool) (haltedAfterSend : Bool) : Bool :=
  if haltedAtEntry then false
  else if !sendOk then false
  else !haltedAfterSend

/-- Go's close on a channel represented by its closed flag: closing a closed
channel panics (modelled as Except.error). -/
def closeChan (closed : Bool) : Except String Bool :=
  if closed then Except.error "close of closed channel" else Except.ok true

/-- chainImpl.Halt (orderer.go lines 206-217): a non-blocking receive on
exitChan; when the channel is already closed, nothing happens, otherwise
close(exitChan).  Returns the new closed flag and whether close was
invoked. -/
def halt (exitClosed : Bool) : Except String (Bool × Bool) :=
  if exitClosed then Except.ok (exitClosed, false)
  else
    match closeChan exitClosed with
    | Except.ok c => Except.ok (c, true)
    | Except.error e => Except.error e

/-- n successive calls of Halt, threading the exitChan closed flag and
counting how many times close was invoked. -/
def haltTimes : Nat → Bool → Except String (Bool × Nat)
  | 0, b => Except.ok (b, 0)
  | Nat.succ n, b =>
    match halt b with
    | Except.ok (b1, closedNow) =>
      match haltTimes n b1 with
      | Except.ok (bf, k) => Except.ok (bf, (if closedNow then 1 else 0) + k)
      | Except.error e => Except.error e
    | Except.error e => Except.error e

/-- The four cleanup effects deferred by chainImpl.loop. -/
inductive CleanupAction where
  | closeConsumer
  | closeProducer
  | setHalted
  | closeHaltedChan
deriving DecidableEq

/-- The defer statements of chainImpl.loop in the order the source registers
them (orderer.go lines 243-246): close(ch.haltedChan); ch.producer.Close();
ch.halted = true; ch.consumer.Close(). -/
def loopDeferRegistrations : List CleanupAction :=
  [CleanupAction.closeHaltedChan, CleanupAction.closeProducer,
   CleanupAction.setHalted, CleanupAction.closeConsumer]

/-- The order in which the deferred cleanup effects run on loop exit: Go
executes deferred calls in reverse registration order (LIFO). -/
def loopCleanupSequence : List CleanupAction := loopDeferRegistrations.reverse

theorem U64_pos : 0 < U64 := by norm_num [U64]

/-- C5: Enqueue returns false whenever halted holds at entry, false on a
failed producer send, and otherwise true exactly when halted is still false
at the final read after the send. -/
theorem enqueue_spec : ∀ haltedAtEntry sendOk haltedAfterSend : Bool,
    enqueue haltedAtEntry sendOk haltedAfterSend = true ↔
      haltedAtEntry = false ∧ sendOk = true ∧ haltedAfterSend = false := by
  decide

/-- C8: any number of successive Halt calls, from any initial state of
exitChan, never panics (the result is always Except.ok), leaves exitChan
closed as soon as one call has run, and invokes close at most once
(0 times when the channel was already closed, min n 1 otherwise). -/
theorem halt_idempotent : ∀ (n : Nat) (b : Bool),
    haltTimes n b = Except.ok (b || !(n == 0), if b then 0 else min n 1) := by
  intro n
  induction n with
  | zero => intro b; cases b <;> simp [haltTimes]
  | succ n ih =>
    intro b
    cases b with
    | true => simp [haltTimes, halt, ih]
    | false =>
      simp [haltTimes, halt, closeChan, ih]

/-- C9 counterexample: the cleanup sequence on loop exit is not
"close consumer, close producer, set halted, close haltedChan" - the
deferred calls run in reverse registration order, which interleaves
differently. -/
theorem cleanup_order_counterexample :
    loopCleanupSequence ≠
      [CleanupAction.closeConsumer, CleanupAction.closeProducer,
       CleanupAction.setHalted, CleanupAction.closeHaltedChan] := by
  decide

/-- C9 (amended): on event-loop exit the deferred cleanup actions run in
exactly this order: close consumer, then mark halted true, then close
producer, then close the halted-signal channel. -/
theorem cleanup_order_correct :
    loopCleanupSequence =
      [CleanupAction.closeConsumer, CleanupAction.setHalted,
       CleanupAction.closeProducer, CleanupAction.closeHaltedChan] := by
  decide

/-- C7: getLastOffsetPersisted fails (fatally, via logger.Panicf) exactly
when the metadata value is present but the KafkaMetadata unmarshal fails;
an absent value yields the sentinel OffsetOldest - 1; a present and
decodable value yields the embedded LastOffsetPersisted. -/
theorem getLastOffsetPersisted_spec (value : Option (List Nat))
    (decode : List Nat → Option Int) :
    (getLastOffsetPersisted value decode = Except.error () ↔
      ∃ bytes, value = some bytes ∧ decode bytes = none) ∧
    (value = none →
      getLastOffsetPersisted value decode = Except.ok (OffsetOldest - 1)) ∧
    (∀ bytes offset, value = some bytes → decode bytes = some offset →
      getLastOffsetPersisted value decode = Except.ok offset) := by
  refine ⟨?_, ?_, ?_⟩
  · cases value with
    | none => simp [getLastOffsetPersisted]
    | some bytes =>
      cases hd : decode bytes with
      | none =>
        simp only [getLastOffsetPersisted, hd]
        constructor
        · intro _
          exact ⟨bytes, rfl, hd⟩
        · intro _
          trivial
      | some offset =>
        simp [getLastOffsetPersisted, hd]
  · intro hv
    subst hv
    simp [getLastOffsetPersisted]
  · intro bytes offset hv hd
    subst hv
    simp [getLastOffsetPersisted, hd]

/-- C7 witness: with a present and decodable metadata value, the embedded
offset is returned. -/
theorem getLastOffsetPersisted_witness :
    getLastOffsetPersisted (some [1]) (fun _ => some 7) = Except.ok 7 :=
  (getLastOffsetPersisted_spec (some [1]) (fun _ => some 7)).2.2 [1] 7 rfl rfl

/-- C2: a chain built by HandleChain from metadata whose recovered persisted
offset is o is started with a consumer constructed at offset o + 1. -/
theorem start_offset_spec (value : Option (List Nat))
    (decode : List Nat → Option Int) (height : Nat) (c : LoopState) (o : Int)
    (hc : handleChain value decode height = Except.ok c)
    (ho : getLastOffsetPersisted value decode = Except.ok o) :
    startConsumerOffset c true = some (o + 1) := by
  unfold handleChain at hc
  rw [ho] at hc
  simp only [Except.ok.injEq] at hc
  subst hc
  simp [startConsumerOffset, newChainState]

/-- C2 witness: recovered offset 41 leads to a consumer constructed at
offset 42. -/
theorem start_offset_witness :
    startConsumerOffset (newChainState 41 5) true = some 42 :=
  start_offset_spec (some [2]) (fun _ => some 41) 5 (newChainState 41 5) 41
    (by rfl) (by rfl)

theorem writeNums_append (l1 l2 : List Action) :
    writeNums (l1 ++ l2) = writeNums l1 ++ writeNums l2 := by
  simp [writeNums, List.filterMap_append]

theorem writeNums_map_writeBlock (offset : Int) (l : List Nat) :
    writeNums (l.map fun n => Action.writeBlock n offset) = l := by
  induction l with
  | nil => rfl
  | cons n rest ih =>
    simp only [List.map_cons, writeNums, List.filterMap_cons] at ih ⊢
    rw [ih]

theorem modRange_length (k : Nat) : ∀ b, (modRange b k).length = k := by
  induction k with
  | zero => intro b; rfl
  | succ k ih => intro b; simp [modRange, ih]

theorem modRange_append (k1 k2 : Nat) : ∀ b, b < U64 →
    modRange b (k1 + k2) = modRange b k1 ++ modRange ((b + k1) % U64) k2 := by
  induction k1 with
  | zero =>
    intro b hb
    simp [modRange, Nat.mod_eq_of_lt hb]
  | succ k1 ih =>
    intro b hb
    have hb1 : (b + 1) % U64 < U64 := Nat.mod_lt _ U64_pos
    have e1 : k1 + 1 + k2 = (k1 + k2) + 1 := by omega
    have e2 : ((b + 1) % U64 + k1) % U64 = (b + (k1 + 1)) % U64 := by
      rw [Nat.mod_add_mod]
      congr 1
      omega
    rw [e1]
    simp only [modRange]
    rw [ih ((b + 1) % U64) hb1, e2]
    simp [List.cons_append]

theorem modRange_eq_consec (k : Nat) : ∀ b, b + k < U64 →
    modRange b k = consecFrom (b + 1) k := by
  induction k with
  | zero => intro b _; rfl
  | succ k ih =>
    intro b hb
    have h1 : (b + 1) % U64 = b + 1 := Nat.mod_eq_of_lt (by omega)
    simp only [modRange, consecFrom, h1]
    rw [ih (b + 1) (by omega)]

theorem Inv_newChainState (o : Int) (h : Nat) : Inv (newChainState o h) := by
  refine ⟨Nat.mod_lt _ U64_pos, ?_⟩
  show h % U64 = ((h + (U64 - 1)) % U64 + 1) % U64
  rw [Nat.mod_add_mod]
  have e1 : h + (U64 - 1) + 1 = h + U64 := by
    have h2 := U64_pos
    omega
  rw [e1, Nat.add_mod_right]

/-- Characterization of the for-loop over cut batches: under the loop
invariant, it adds the batch count to both the ledger height and
lastCutBlock (mod 2^64), leaves the timer and lastOffsetPersisted alone, and
emits one WriteBlock per batch at the successive block numbers, each
embedding the triggering message's offset. -/
theorem cutBatchesL_eq (offset : Int) (batches : List (List Nat)) :
    ∀ s : LoopState, Inv s →
      cutBatchesL s offset batches =
        ({ s with height := (s.height + batches.length) % U64,
                  lastCutBlock := (s.lastCutBlock + batches.length) % U64 },
         (modRange s.lastCutBlock batches.length).map
           (fun n => Action.writeBlock n offset)) := by
  induction batches with
  | nil =>
    intro s hs
    have hh : s.height < U64 := hs.2 ▸ Nat.mod_lt _ U64_pos
    simp [cutBatchesL, modRange, Nat.mod_eq_of_lt hs.1, Nat.mod_eq_of_lt hh]
  | cons head rest ih =>
    intro s hs
    have hs1 : Inv { s with height := (s.height + 1) % U64,
                            lastCutBlock := (s.lastCutBlock + 1) % U64 } := by
      refine ⟨Nat.mod_lt _ U64_pos, ?_⟩
      show (s.height + 1) % U64 = ((s.lastCutBlock + 1) % U64 + 1) % U64
      rw [hs.2]
    have hrec := ih { s with height := (s.height + 1) % U64,
                             lastCutBlock := (s.lastCutBlock + 1) % U64 } hs1
    have e1 : ((s.height + 1) % U64 + rest.length) % U64
        = (s.height + (head :: rest).length) % U64 := by
      rw [Nat.mod_add_mod]
      congr 1
      simp only [List.length_cons]
      omega
    have e2 : ((s.lastCutBlock + 1) % U64 + rest.length) % U64
        = (s.lastCutBlock + (head :: rest).length) % U64 := by
      rw [Nat.mod_add_mod]
      congr 1
      simp only [List.length_cons]
      omega
    simp only [cutBatchesL]
    rw [hrec]
    simp only [List.length_cons, modRange, List.map_cons]
    rw [hs.2] at e1 ⊢
    simp only [List.length_cons] at e1 e2
    rw [e1, e2]

/-- One select iteration, summarized: it writes some number k of blocks
(k successive block numbers continuing from lastCutBlock), advances
lastCutBlock by exactly k (mod 2^64), preserves the loop invariant, and
never touches lastOffsetPersisted. -/
theorem loopStep_writes (s : LoopState) (i : LoopInput) (hs : Inv s) :
    ∃ k, Inv (loopStep s i).state ∧
      (loopStep s i).state.lastCutBlock = (s.lastCutBlock + k) % U64 ∧
      writeNums (loopStep s i).acts = modRange s.lastCutBlock k ∧
      (loopStep s i).state.lastOffsetPersisted = s.lastOffsetPersisted := by
  have hb0 : s.lastCutBlock % U64 = s.lastCutBlock := Nat.mod_eq_of_lt hs.1
  cases i with
  | recvConnect offset =>
    refine ⟨0, hs, ?_, ?_, ?_⟩
    · simp [loopStep, StepResult.state, hb0]
    · simp [loopStep, StepResult.acts, writeNums, modRange]
    · rfl
  | recvTimeToCut offset n cb =>
    by_cases h1 : n = (s.lastCutBlock + 1) % U64
    · cases hcb : cb.isEmpty with
      | true =>
        have hres : loopStep s (LoopInput.recvTimeToCut offset n cb)
            = StepResult.exit { s with timerRunning := false } [] := by
          simp [loopStep, h1, hcb]
        refine ⟨0, ?_, ?_, ?_, ?_⟩ <;> rw [hres]
        · exact ⟨hs.1, hs.2⟩
        · simp [StepResult.state, hb0]
        · simp [StepResult.acts, writeNums, modRange]
        · rfl
      | false =>
        have hres : loopStep s (LoopInput.recvTimeToCut offset n cb)
            = StepResult.next
                { s with timerRunning := false,
                         height := (s.height + 1) % U64,
                         lastCutBlock := (s.lastCutBlock + 1) % U64 }
                [Action.writeBlock s.height offset] := by
          simp [loopStep, h1, hcb]
        refine ⟨1, ?_, ?_, ?_, ?_⟩ <;> rw [hres]
        · refine ⟨Nat.mod_lt _ U64_pos, ?_⟩
          show (s.height + 1) % U64 = ((s.lastCutBlock + 1) % U64 + 1) % U64
          rw [hs.2]
        · rfl
        · simp [StepResult.acts, writeNums, modRange, hs.2]
        · rfl
    · by_cases h2 : n > (s.lastCutBlock + 1) % U64
      · have hres : loopStep s (LoopInput.recvTimeToCut offset n cb)
            = StepResult.exit s [] := by
          simp [loopStep, h1, h2]
        refine ⟨0, ?_, ?_, ?_, ?_⟩ <;> rw [hres]
        · exact hs
        · simp [StepResult.state, hb0]
        · simp [StepResult.acts, writeNums, modRange]
        · rfl
      · have hres : loopStep s (LoopInput.recvTimeToCut offset n cb)
            = StepResult.next s [] := by
          simp [loopStep, h1, h2]
        refine ⟨0, ?_, ?_, ?_, ?_⟩ <;> rw [hres]
        · exact hs
        · simp [StepResult.state, hb0]
        · simp [StepResult.acts, writeNums, modRange]
        · rfl
  | recvRegular offset batches ok =>
    cases batches with
    | nil =>
      cases ok with
      | false =>
        have hres : loopStep s (LoopInput.recvRegular offset [] false)
            = StepResult.next s [] := by
          simp [loopStep, cutBatchesL]
        refine ⟨0, ?_, ?_, ?_, ?_⟩ <;> rw [hres]
        · exact hs
        · simp [StepResult.state, hb0]
        · simp [StepResult.acts, writeNums, modRange]
        · rfl
      | true =>
        cases htr : s.timerRunning with
        | false =>
          have hres : loopStep s (LoopInput.recvRegular offset [] true)
              = StepResult.next { s with timerRunning := true } [] := by
            simp [loopStep, htr]
          refine ⟨0, ?_, ?_, ?_, ?_⟩ <;> rw [hres]
          · exact ⟨hs.1, hs.2⟩
          · simp [StepResult.state, hb0]
          · simp [StepResult.acts, writeNums, modRange]
          · rfl
        | true =>
          have hres : loopStep s (LoopInput.recvRegular offset [] true)
              = StepResult.next s [] := by
            simp [loopStep, htr, cutBatchesL]
          refine ⟨0, ?_, ?_, ?_, ?_⟩ <;> rw [hres]
          · exact hs
          · simp [StepResult.state, hb0]
          · simp [StepResult.acts, writeNums, modRange]
          · rfl
    | cons head rest =>
      have hcut := cutBatchesL_eq offset (head :: rest) s hs
      have hres : loopStep s (LoopInput.recvRegular offset (head :: rest) ok)
          = StepResult.next
              { (cutBatchesL s offset (head :: rest)).1 with timerRunning := false }
              (cutBatchesL s offset (head :: rest)).2 := by
        simp [loopStep]
      refine ⟨(head :: rest).length, ?_, ?_, ?_, ?_⟩ <;> rw [hres, hcut]
      · refine ⟨Nat.mod_lt _ U64_pos, ?_⟩
        show (s.height + (head :: rest).length) % U64
            = ((s.lastCutBlock + (head :: rest).length) % U64 + 1) % U64
        rw [hs.2, Nat.mod_add_mod, Nat.mod_add_mod]
        congr 1
        omega
      · rfl
      · simp [StepResult.acts, writeNums_map_writeBlock]
      · rfl
  | timerFired sendOk =>
    refine ⟨0, ⟨hs.1, hs.2⟩, ?_, ?_, ?_⟩
    · simp [loopStep, StepResult.state, hb0]
    · simp [loopStep, StepResult.acts, writeNums, modRange]
    · rfl
  | exitSignal =>
    refine ⟨0, hs, ?_, ?_, ?_⟩
    · simp [loopStep, StepResult.state, hb0]
    · simp [loopStep, StepResult.acts, writeNums, modRange]
    · rfl

/-- A whole run, summarized: some number K of blocks gets written, at the K
successive block numbers continuing from the starting lastCutBlock; the
final lastCutBlock is the start plus K (mod 2^64); the invariant is
preserved and lastOffsetPersisted untouched. -/
theorem loopRun_writes (inputs : List LoopInput) :
    ∀ s : LoopState, Inv s →
      ∃ K, Inv (loopRun s inputs).1 ∧
        (loopRun s inputs).1.lastCutBlock = (s.lastCutBlock + K) % U64 ∧
        writeNums (loopRun s inputs).2.1 = modRange s.lastCutBlock K ∧
        (loopRun s inputs).1.lastOffsetPersisted = s.lastOffsetPersisted := by
  induction inputs with
  | nil =>
    intro s hs
    refine ⟨0, hs, ?_, rfl, rfl⟩
    simp [loopRun, Nat.mod_eq_of_lt hs.1]
  | cons i rest ih =>
    intro s hs
    obtain ⟨k1, p1, p2, p3, p4⟩ := loopStep_writes s i hs
    cases hstep : loopStep s i with
    | next s1 acts =>
      rw [hstep] at p1 p2 p3 p4
      simp only [StepResult.state, StepResult.acts] at p1 p2 p3 p4
      obtain ⟨K2, q1, q2, q3, q4⟩ := ih s1 p1
      have hrun : loopRun s (i :: rest)
          = ((loopRun s1 rest).1, acts ++ (loopRun s1 rest).2.1,
             (loopRun s1 rest).2.2) := by
        simp [loopRun, hstep]
      refine ⟨k1 + K2, ?_, ?_, ?_, ?_⟩ <;> rw [hrun]
      · exact q1
      · rw [q2, p2, Nat.mod_add_mod, Nat.add_assoc]
      · rw [writeNums_append, p3, q3, p2]
        exact (modRange_append k1 K2 s.lastCutBlock hs.1).symm
      · rw [q4, p4]
    | exit s1 acts =>
      rw [hstep] at p1 p2 p3 p4
      simp only [StepResult.state, StepResult.acts] at p1 p2 p3 p4
      have hrun : loopRun s (i :: rest) = (s1, acts, true) := by
        simp [loopRun, hstep]
      refine ⟨k1, ?_, ?_, ?_, ?_⟩ <;> rw [hrun]
      · exact p1
      · exact p2
      · exact p3
      · exact p4

theorem cutBatchesL_lop (offset : Int) (batches : List (List Nat)) :
    ∀ s : LoopState,
      (cutBatchesL s offset batches).1.lastOffsetPersisted
        = s.lastOffsetPersisted := by
  induction batches with
  | nil => intro s; rfl
  | cons head rest ih =>
    intro s
    have h1 := ih { s with height := (s.height + 1) % U64,
                           lastCutBlock := (s.lastCutBlock + 1) % U64 }
    simp only [cutBatchesL]
    exact h1

theorem cutBatchesL_acts_offset (offset : Int) (batches : List (List Nat)) :
    ∀ (s : LoopState) (a : Action), a ∈ (cutBatchesL s offset batches).2 →
      ∀ bn voff, a = Action.writeBlock bn voff → voff = offset := by
  induction batches with
  | nil =>
    intro s a ha
    simp [cutBatchesL] at ha
  | cons head rest ih =>
    intro s a ha bn voff hav
    simp only [cutBatchesL, List.mem_cons] at ha
    cases ha with
    | inl h1 =>
      subst h1
      injection hav with e1 e2
      exact e2.symm
    | inr h1 =>
      exact ih _ a h1 bn voff hav

theorem loopStep_lop (s : LoopState) (i : LoopInput) :
    (loopStep s i).state.lastOffsetPersisted = s.lastOffsetPersisted := by
  cases i with
  | recvConnect offset => rfl
  | recvTimeToCut offset n cb =>
    simp only [loopStep]
    split
    · split
      · rfl
      · rfl
    · split
      · rfl
      · rfl
  | recvRegular offset batches ok =>
    simp only [loopStep]
    split
    · rfl
    · split
      · exact cutBatchesL_lop offset batches s
      · exact cutBatchesL_lop offset batches s
  | timerFired sendOk => rfl
  | exitSignal => rfl

theorem loopRun_lop (inputs : List LoopInput) :
    ∀ s : LoopState,
      (loopRun s inputs).1.lastOffsetPersisted = s.lastOffsetPersisted := by
  induction inputs with
  | nil => intro s; rfl
  | cons i rest ih =>
    intro s
    have hstep := loopStep_lop s i
    cases h : loopStep s i with
    | next s1 acts =>
      rw [h] at hstep
      simp only [StepResult.state] at hstep
      have hrun : loopRun s (i :: rest)
          = ((loopRun s1 rest).1, acts ++ (loopRun s1 rest).2.1,
             (loopRun s1 rest).2.2) := by
        simp [loopRun, h]
      rw [hrun]
      rw [ih s1]
      exact hstep
    | exit s1 acts =>
      rw [h] at hstep
      simp only [StepResult.state] at hstep
      have hrun : loopRun s (i :: rest) = (s1, acts, true) := by
        simp [loopRun, h]
      rw [hrun]
      exact hstep

/-- C1: trichotomy of a consumed TimeToCut message with block number n
against lastCutBlock (stated away from the uint64 wrap point, where the
source's comparison against lastCutBlock+1 is the mathematical one):
at n = lastCutBlock+1 the timer is cleared and BlockCutter.Cut consulted -
an empty batch exits the loop (timer cleared, nothing written), otherwise
exactly one block is written (embedding the message's offset) and
lastCutBlock is incremented by one; at n > lastCutBlock+1 the loop exits
with the state unchanged; at n ≤ lastCutBlock the message is stale and is
ignored with all state unchanged. -/
theorem timeToCut_trichotomy (s : LoopState) (offset : Int) (n : Nat)
    (cutBatch : List Nat) (hb : s.lastCutBlock + 1 < U64) :
    (n = s.lastCutBlock + 1 → cutBatch = [] →
      loopStep s (LoopInput.recvTimeToCut offset n cutBatch)
        = StepResult.exit { s with timerRunning := false } []) ∧
    (n = s.lastCutBlock + 1 → cutBatch ≠ [] →
      loopStep s (LoopInput.recvTimeToCut offset n cutBatch)
        = StepResult.next
            { s with timerRunning := false,
                     height := (s.height + 1) % U64,
                     lastCutBlock := s.lastCutBlock + 1 }
            [Action.writeBlock s.height offset]) ∧
    (n > s.lastCutBlock + 1 →
      loopStep s (LoopInput.recvTimeToCut offset n cutBatch)
        = StepResult.exit s []) ∧
    (n ≤ s.lastCutBlock →
      loopStep s (LoopInput.recvTimeToCut offset n cutBatch)
        = StepResult.next s []) := by
  have hmod : (s.lastCutBlock + 1) % U64 = s.lastCutBlock + 1 :=
    Nat.mod_eq_of_lt hb
  refine ⟨?_, ?_, ?_, ?_⟩
  · intro h1 h2
    subst h2
    simp [loopStep, hmod, h1]
  · intro h1 h2
    have hcb : cutBatch.isEmpty = false := by
      cases cutBatch with
      | nil => exact absurd rfl h2
      | cons a l => rfl
    simp [loopStep, hmod, h1, hcb]
  · intro h1
    have hne : ¬ n = s.lastCutBlock + 1 := by omega
    simp [loopStep, hmod, hne, h1]
  · intro h1
    have hne : ¬ n = s.lastCutBlock + 1 := by omega
    have hgt : ¬ n > s.lastCutBlock + 1 := by omega
    simp [loopStep, hmod, hne, hgt]

/-- C1 witness: a stale time-to-cut (n = lastCutBlock) is ignored, state
unchanged. -/
theorem timeToCut_trichotomy_witness :
    loopStep (newChainState (-5) 3) (LoopInput.recvTimeToCut 8 2 [])
      = StepResult.next (newChainState (-5) 3) [] :=
  (timeToCut_trichotomy (newChainState (-5) 3) 8 2 [] (by decide)).2.2.2
    (by decide)

/-- C4: when the batch timer fires, the loop clears the timer and publishes
TimeToCut(lastCutBlock+1) - no block is written (the single action is the
send), and whether or not the send succeeds the loop continues with no
state change other than the cleared timer (stated away from the uint64
wrap point). -/
theorem timer_fired_spec (s : LoopState) (sendOk : Bool)
    (hb : s.lastCutBlock + 1 < U64) :
    loopStep s (LoopInput.timerFired sendOk)
      = StepResult.next { s with timerRunning := false }
          [Action.sendTimeToCut (s.lastCutBlock + 1) sendOk] := by
  simp [loopStep, Nat.mod_eq_of_lt hb]

/-- C4 witness: timer expiry with a failing send still continues, timer
cleared, with a TimeToCut(2) publish attempted. -/
theorem timer_fired_witness :
    loopStep (newChainState 0 2) (LoopInput.timerFired false)
      = StepResult.next { newChainState 0 2 with timerRunning := false }
          [Action.sendTimeToCut 2 false] :=
  timer_fired_spec (newChainState 0 2) false (by decide)

/-- C3: over any run of the event loop from a state satisfying the loop
invariant, in the regime where lastCutBlock does not wrap, the block
numbers passed to WriteBlock are lastCutBlock+1, lastCutBlock+2, ...
consecutively - no gaps, no repeats - and the final lastCutBlock is the
starting one plus exactly the number of written blocks (it is incremented
once per written block and mutated nowhere else). -/
theorem loop_writes_consecutive (s : LoopState) (inputs : List LoopInput)
    (hs : Inv s)
    (hK : s.lastCutBlock + (writeNums (loopRun s inputs).2.1).length < U64) :
    writeNums (loopRun s inputs).2.1
      = consecFrom (s.lastCutBlock + 1)
          (writeNums (loopRun s inputs).2.1).length ∧
    (loopRun s inputs).1.lastCutBlock
      = s.lastCutBlock + (writeNums (loopRun s inputs).2.1).length := by
  obtain ⟨K, q1, q2, q3, q4⟩ := loopRun_writes inputs s hs
  have hlen : (writeNums (loopRun s inputs).2.1).length = K := by
    rw [q3, modRange_length]
  rw [hlen] at hK ⊢
  constructor
  · rw [q3]
    exact modRange_eq_consec K s.lastCutBlock hK
  · rw [q2, Nat.mod_eq_of_lt hK]

/-- C3 witness: one matching time-to-cut from lastCutBlock = 1 writes
exactly block 2 and leaves lastCutBlock = 2. -/
theorem loop_writes_consecutive_witness :
    writeNums (loopRun (newChainState (-3) 2)
        [LoopInput.recvTimeToCut 6 2 [1]]).2.1
      = consecFrom ((newChainState (-3) 2).lastCutBlock + 1)
          (writeNums (loopRun (newChainState (-3) 2)
              [LoopInput.recvTimeToCut 6 2 [1]]).2.1).length ∧
    (loopRun (newChainState (-3) 2)
        [LoopInput.recvTimeToCut 6 2 [1]]).1.lastCutBlock
      = (newChainState (-3) 2).lastCutBlock
          + (writeNums (loopRun (newChainState (-3) 2)
              [LoopInput.recvTimeToCut 6 2 [1]]).2.1).length :=
  loop_writes_consecutive (newChainState (-3) 2)
    [LoopInput.recvTimeToCut 6 2 [1]] (Inv_newChainState (-3) 2) (by decide)

/-- C10: for a chain built by newChain (lastCutBlock := Height() - 1 in
uint64 arithmetic), the first block the event loop writes - in any run,
whatever the consumed events - carries block number equal to the ledger
height at construction time. -/
theorem first_write_is_height (o : Int) (h : Nat) (inputs : List LoopInput)
    (x : Nat) (hh : h < U64)
    (hx : (writeNums (loopRun (newChainState o h) inputs).2.1).head?
        = some x) :
    x = h := by
  obtain ⟨K, q1, q2, q3, q4⟩ :=
    loopRun_writes inputs (newChainState o h) (Inv_newChainState o h)
  rw [q3] at hx
  cases K with
  | zero => simp [modRange] at hx
  | succ K =>
    simp only [modRange, List.head?_cons, Option.some.injEq] at hx
    subst hx
    show ((h + (U64 - 1)) % U64 + 1) % U64 = h
    rw [Nat.mod_add_mod]
    have e1 : h + (U64 - 1) + 1 = h + U64 := by
      have h2 := U64_pos
      omega
    rw [e1, Nat.add_mod_right]
    exact Nat.mod_eq_of_lt hh

/-- C10 witness: from a ledger of height 1 at construction, the first
written block is block 1. -/
theorem first_write_is_height_witness :
    (writeNums (loopRun (newChainState (-3) 1)
        [LoopInput.recvTimeToCut 9 1 [4]]).2.1).head? = some 1 ∧
    (1 : Nat) = 1 :=
  ⟨by decide,
   first_write_is_height (-3) 1 [LoopInput.recvTimeToCut 9 1 [4]] 1
     (by decide) (by decide)⟩

/-- C6 counterexample: a run whose only consumed message sits at partition
offset 5 and triggers a block cut - the written block embeds offset 5, yet
the lastOffsetPersisted field still holds its construction value -3: the
event loop does not mutate the field, so the field does not come to hold
the offset of the last message folded into a block. -/
theorem lastOffsetPersisted_counterexample :
    (loopRun (newChainState (-3) 1) [LoopInput.recvTimeToCut 5 1 [7]]).2.1
      = [Action.writeBlock 1 5] ∧
    (loopRun (newChainState (-3) 1)
        [LoopInput.recvTimeToCut 5 1 [7]]).1.lastOffsetPersisted ≠ 5 := by
  decide

/-- C6 (amended): the event loop never mutates the lastOffsetPersisted
field - over any run it keeps its construction-time value (hence trivially
non-decreasing); the offset of a message folded into a block is recorded in
the written block's embedded metadata instead: every WriteBlock action of a
step embeds exactly the partition offset of the consumed message that
triggered it. -/
theorem loop_preserves_lastOffsetPersisted :
    (∀ (s : LoopState) (inputs : List LoopInput),
      (loopRun s inputs).1.lastOffsetPersisted = s.lastOffsetPersisted) ∧
    (∀ (s : LoopState) (i : LoopInput) (a : Action),
      a ∈ (loopStep s i).acts → ∀ bn voff, a = Action.writeBlock bn voff →
        inputOffset i = some voff) := by
  constructor
  · intro s inputs
    exact loopRun_lop inputs s
  · intro s i a ha bn voff hav
    cases i with
    | recvConnect offset =>
      simp [loopStep, StepResult.acts] at ha
    | recvTimeToCut offset n cb =>
      simp only [loopStep] at ha
      split at ha
      · split at ha
        · simp [StepResult.acts] at ha
        · simp only [StepResult.acts, List.mem_singleton] at ha
          subst ha
          injection hav with e1 e2
          rw [e2]
          rfl
      · split at ha
        · simp [StepResult.acts] at ha
        · simp [StepResult.acts] at ha
    | recvRegular offset batches ok =>
      simp only [loopStep] at ha
      split at ha
      · simp [StepResult.acts] at ha
      · split at ha
        · simp only [StepResult.acts] at ha
          have hv := cutBatchesL_acts_offset offset batches s a ha bn voff hav
          rw [hv]
          rfl
        · simp only [StepResult.acts] at ha
          have hv := cutBatchesL_acts_offset offset batches s a ha bn voff hav
          rw [hv]
          rfl
    | timerFired sendOk =>
      simp only [loopStep, StepResult.acts, List.mem_singleton] at ha
      subst ha
      simp at hav
    | exitSignal =>
      simp [loopStep, StepResult.acts] at ha

/-- C6 amended witness: the cut triggered by the message at offset 5 embeds
offset 5. -/
theorem loop_preserves_lastOffsetPersisted_witness :
    inputOffset (LoopInput.recvTimeToCut 5 1 [7]) = some 5 :=
  loop_preserves_lastOffsetPersisted.2 (newChainState (-3) 1)
    (LoopInput.recvTimeToCut 5 1 [7]) (Action.writeBlock 1 5) (by decide) 1 5
    rfl

end FabricKafka
